import Mathlib

/-!
# Verification of the YASK core against its specification

Shallow embedding of the YASK vector-register abstraction (`src/realv.hpp`),
the expression-IR visitor framework (`src/foldBuilder/Visitor.hpp`), the
vector code-generation pointer cache (`src/compiler/lib/Cpp.hpp`) and the
finite-difference coefficient routine (`src/coefficients/fd_coeff.cpp`).

Registers are modelled as total functions `Nat → α` over an abstract lane
type `α`; a register of width `W` is the restriction to lanes `< W`.  The
imperative per-lane loops of the emulated intrinsics are embedded as
explicit state-passing loops (`storeLoop`, `maskedStoreLoop`) over
`Function.update`, mirroring the C `for` loops lane by lane.  Lane values
for the comparison operators are modelled by `FP`, which captures IEEE-754
comparison semantics exactly (NaN unordered, the two zeros equal).
-/

namespace Yask

/-- One iteration bundle for the emulated SIMD loops: starting at lane `j`,
for `fuel` iterations, store `f i` into lane `i` of the register `r`.
This is the shape of every `for (int i = start; i < end; i++) res.r[i] = ...;`
loop in `realv.hpp` (with `fuel = end - start`). -/
def storeLoop {α : Type} (f : Nat → α) : (Nat → α) → Nat → Nat → (Nat → α)
  | r, _, 0 => r
  | r, j, fuel + 1 => storeLoop f (Function.update r j (f j)) (j + 1) fuel

/-- Same loop shape but each store is guarded by bit `i` of the mask `k1`,
mirroring `if ((k1 >> i) & 1) res.r[i] = ...;` in the masked intrinsics. -/
def maskedStoreLoop {α : Type} (f : Nat → α) (k1 : Nat) :
    (Nat → α) → Nat → Nat → (Nat → α)
  | r, _, 0 => r
  | r, j, fuel + 1 =>
    maskedStoreLoop f k1
      (if (k1 >>> j) &&& 1 = 1 then Function.update r j (f j) else r) (j + 1) fuel

/-- Emulated `realv_align(res, v2, v3, count)` (realv.hpp lines 368-397,
`EMU_INTRINSICS` branch): two loops writing
`res.r[i] = v3.r[i + count]` for `0 <= i < VLEN - count` and
`res.r[i] = v2.r[i + count - VLEN]` for `VLEN - count <= i < VLEN`.
`W` plays the role of `VLEN`. -/
def realv_align {α : Type} (W : Nat) (res v2 v3 : Nat → α) (count : Nat) :
    Nat → α :=
  let r1 := storeLoop (fun i => v3 (i + count)) res 0 (W - count)
  storeLoop (fun i => v2 (i + count - W)) r1 (W - count) (W - (W - count))

/-- Emulated masked `realv_align(res, v2, v3, count, k1)` (realv.hpp lines
400-434): the same two loops, each store guarded by `(k1 >> i) & 1`. -/
def realv_align_masked {α : Type} (W : Nat) (res v2 v3 : Nat → α)
    (count k1 : Nat) : Nat → α :=
  let r1 := maskedStoreLoop (fun i => v3 (i + count)) k1 res 0 (W - count)
  maskedStoreLoop (fun i => v2 (i + count - W)) k1 r1 (W - count) (W - (W - count))

/-- Emulated `realv_permute(res, ctrl, v3)` (realv.hpp lines 437-465):
`res.r[i] = tmp.r[ctrl.ci[i]]` for every lane (the `tmp` copy of `v3` is the
identity in a pure embedding).  `ctrl` is the `ci` (control-integer) view. -/
def realv_permute {α : Type} (W : Nat) (res : Nat → α) (ctrl : Nat → Nat)
    (v3 : Nat → α) : Nat → α :=
  storeLoop (fun i => v3 (ctrl i)) res 0 W

/-- Emulated masked `realv_permute(res, ctrl, v3, k1)` (realv.hpp lines
468-501): same store guarded by `(k1 >> i) & 1`. -/
def realv_permute_masked {α : Type} (W : Nat) (res : Nat → α)
    (ctrl : Nat → Nat) (v3 : Nat → α) (k1 : Nat) : Nat → α :=
  maskedStoreLoop (fun i => v3 (ctrl i)) k1 res 0 W

/-- The double-width logical concatenation of two registers used by the
spec's description of lane-rotate: `v3` occupies lanes `0..W-1` (lower
addresses), `v2` occupies lanes `W..2W-1`. -/
def realv_concat {α : Type} (W : Nat) (v3 v2 : Nat → α) (j : Nat) : α :=
  if j < W then v3 j else v2 (j - W)

/-- A lane value of a `realv` register, modelled exactly as far as IEEE-754
comparison semantics (the only float operations the comparator claims use):
`nan` is any NaN; `fin s m` is the value `-m` when the sign flag `s` is set
and `m` otherwise, so `fin true 0` and `fin false 0` are the two
bit-distinct zeros.  Structural equality of `FP` is bit-identity (all NaNs
identified, which only strengthens any bit-identity counterexample). -/
inductive FP : Type where
  | nan : FP
  | fin : Bool → ℚ → FP
deriving DecidableEq

/-- The numeric value a lane compares as; `none` for NaN. -/
def FP.toVal : FP → Option ℚ
  | FP.nan => none
  | FP.fin s m => some (if s then -m else m)

/-- IEEE `<` on lane values: false whenever either side is NaN. -/
def fpLtB (a b : FP) : Bool :=
  match a.toVal, b.toVal with
  | some x, some y => decide (x < y)
  | _, _ => false

/-- IEEE `>` on lane values (`x > y` iff `y < x`). -/
def fpGtB (a b : FP) : Bool := fpLtB b a

/-- IEEE `==` on lane values: false whenever either side is NaN; the two
zeros compare equal. -/
def fpEqB (a b : FP) : Bool :=
  match a.toVal, b.toVal with
  | some x, some y => decide (x = y)
  | _, _ => false

/-- IEEE `!=`, the exact negation of IEEE `==` (true on any NaN operand). -/
def fpNeB (a b : FP) : Bool := !(fpEqB a b)

/-- The loop of `realv::operator==` (realv.hpp lines 270-276): scan lanes
from `j` for `fuel` iterations; `if (r[j] != rhs.r[j]) return false;` and
return true after the loop. -/
def eqLoop (a b : Nat → FP) : Nat → Nat → Bool
  | _, 0 => true
  | j, fuel + 1 => if fpNeB (a j) (b j) then false else eqLoop a b (j + 1) fuel

/-- `realv::operator==` over width `W`. -/
def realv_eq (W : Nat) (a b : Nat → FP) : Bool := eqLoop a b 0 W

/-- The loop of `realv::operator<` (realv.hpp lines 248-256):
`if (r[j] < rhs.r[j]) return true; else if (r[j] > rhs.r[j]) return false;`
per lane, `false` after the loop. -/
def ltLoop (a b : Nat → FP) : Nat → Nat → Bool
  | _, 0 => false
  | j, fuel + 1 =>
    if fpLtB (a j) (b j) then true
    else if fpGtB (a j) (b j) then false
    else ltLoop a b (j + 1) fuel

/-- `realv::operator<` over width `W`. -/
def realv_lt (W : Nat) (a b : Nat → FP) : Bool := ltLoop a b 0 W

/-- The loop of `realv::operator>` (realv.hpp lines 259-267): mirror image
of `operator<`. -/
def gtLoop (a b : Nat → FP) : Nat → Nat → Bool
  | _, 0 => false
  | j, fuel + 1 =>
    if fpGtB (a j) (b j) then true
    else if fpLtB (a j) (b j) then false
    else gtLoop a b (j + 1) fuel

/-- `realv::operator>` over width `W`. -/
def realv_gt (W : Nat) (a b : Nat → FP) : Bool := gtLoop a b 0 W

/-- C4's reading of `realv::operator==` as bit-identity: true iff every
lane is bit-identical (structurally equal in the `FP` model).  Stated as a
definition so the counterexample can refute the claim as written. -/
def bitIdentityEqClaim (W : Nat) (a b : Nat → FP) : Prop :=
  realv_eq W a b = true ↔ ∀ j, j < W → a j = b j

/-- C8's reading of `realv::operator>`: the first (bit-)differing lane
decides, i.e. `a > b` holds exactly when some lane `k` has all earlier
lanes bit-identical and `a k` IEEE-greater than `b k`. -/
def firstDiffDecidesGtClaim (W : Nat) (a b : Nat → FP) : Prop :=
  realv_gt W a b = true ↔
    ∃ k, k < W ∧ (∀ m, m < k → a m = b m) ∧ fpGtB (a k) (b k) = true

/-- A `GridPoint`: a grid name plus, for each of the grid's dimensions, an
integer index offset (the constant part of an index expression such as
`x+1`; constant indices of misc/step dimensions are represented the same
way).  Equality is structural, matching the value equality the C++ code
defines for use as map keys. -/
structure GridPoint : Type where
  grid : String
  args : List (String × Int)
deriving DecidableEq

/-- The expression IR of `Expr.hpp` as used by `Visitor.hpp`: numeric
literals, opaque code fragments, grid-point reads (leaves), unary and
binary nodes, n-ary commutative nodes, and the top-level equation node
whose left-hand side is a `GridPoint`.  A DAG with shared subexpressions,
traversed once per use site, unfolds to exactly this tree. -/
inductive Expr : Type where
  | constE : ℚ → Expr
  | codeE : String → Expr
  | gridRead : GridPoint → Expr
  | unaryE : String → Expr → Expr
  | binaryE : String → Expr → Expr → Expr
  | commE : String → List Expr → Expr
  | equalsE : GridPoint → Expr → Expr

mutual

/-- `FpOpCounterVisitor` (Visitor.hpp lines 73-103): leaves contribute 0;
a unary node adds 1 and visits its operand; a binary node adds 1 and
visits both operands; a commutative node adds `ops.size() - 1` and visits
each operand; an `EqualsExpr` uses the inherited default, which visits the
left-hand grid point (a leaf, contributing 0) and the right-hand side. -/
def fpOpCount : Expr → Nat
  | Expr.constE _ => 0
  | Expr.codeE _ => 0
  | Expr.gridRead _ => 0
  | Expr.unaryE _ e => 1 + fpOpCount e
  | Expr.binaryE _ l r => 1 + (fpOpCount l + fpOpCount r)
  | Expr.commE _ ops => (ops.length - 1) + fpOpCountList ops
  | Expr.equalsE _ r => fpOpCount r

/-- Sum of `fpOpCount` over an operand list, in stored order. -/
def fpOpCountList : List Expr → Nat
  | [] => 0
  | e :: es => fpOpCount e + fpOpCountList es

end

mutual

/-- The number of unary- and binary-node occurrences in an expression. -/
def ubNodes : Expr → Nat
  | Expr.constE _ => 0
  | Expr.codeE _ => 0
  | Expr.gridRead _ => 0
  | Expr.unaryE _ e => 1 + ubNodes e
  | Expr.binaryE _ l r => 1 + (ubNodes l + ubNodes r)
  | Expr.commE _ ops => ubNodesList ops
  | Expr.equalsE _ r => ubNodes r

/-- Sum of `ubNodes` over an operand list. -/
def ubNodesList : List Expr → Nat
  | [] => 0
  | e :: es => ubNodes e + ubNodesList es

end

mutual

/-- True when the expression contains no commutative node. -/
def commFree : Expr → Bool
  | Expr.constE _ => true
  | Expr.codeE _ => true
  | Expr.gridRead _ => true
  | Expr.unaryE _ e => commFree e
  | Expr.binaryE _ l r => commFree l && commFree r
  | Expr.commE _ _ => false
  | Expr.equalsE _ r => commFree r

/-- `commFree` over an operand list. -/
def commFreeList : List Expr → Bool
  | [] => true
  | e :: es => commFree e && commFreeList es

end

mutual

/-- The sequence of grid points visited by the *default* `ExprVisitor`
traversal (Visitor.hpp lines 36-69) when only the `GridPoint` case is
overridden to record the point: leaves other than grid points record
nothing; unary visits its operand; binary visits left then right;
commutative visits its operands in stored order; `EqualsExpr` (lines
57-60) calls `accept` on its left-hand grid point — dispatching the
`GridPoint` case — and then on its right-hand side. -/
def collectPoints : Expr → List GridPoint
  | Expr.constE _ => []
  | Expr.codeE _ => []
  | Expr.gridRead g => [g]
  | Expr.unaryE _ e => collectPoints e
  | Expr.binaryE _ l r => collectPoints l ++ collectPoints r
  | Expr.commE _ ops => collectPointsList ops
  | Expr.equalsE g r => g :: collectPoints r

/-- `collectPoints` over an operand list, concatenated in stored order. -/
def collectPointsList : List Expr → List GridPoint
  | [] => []
  | e :: es => collectPoints e ++ collectPointsList es

end

/-- Association-list lookup, modelling `std::map::count/at`. -/
def alookup {κ ν : Type} [DecidableEq κ] : List (κ × ν) → κ → Option ν
  | [], _ => none
  | p :: ps, k => if p.1 = k then some p.2 else alookup ps k

/-- Association-list insert-or-replace, modelling `std::map::operator[]`
assignment. -/
def aset {κ ν : Type} [DecidableEq κ] : List (κ × ν) → κ → ν → List (κ × ν)
  | [], k, v => [(k, v)]
  | p :: ps, k, v => if p.1 = k then (k, v) :: ps else p :: aset ps k v

/-- Modelled from the spec: `GridPoint::setArgConst(IntScalar)` (declared
in `Expr.hpp`, which is not among the sources): replace the index
expression of the named dimension by the given constant, leaving every
other dimension's index unchanged. -/
def setArgConst (gp : GridPoint) (dim : String) (val : Int) : GridPoint :=
  { gp with args := gp.args.map fun p => if p.1 = dim then (p.1, val) else p }

/-- `CppVecPrintHelper::makeBasePoint` (Cpp.hpp lines 176-181): clone the
point and set the inner-dimension index to 0. -/
def makeBasePoint (innerDim : String) (gp : GridPoint) : GridPoint :=
  setArgConst gp innerDim 0

/-- Modelled from the spec: the fold planner's base-point mapping
(`VecInfoVisitor` lives in `Vec.hpp`, which is not among the sources):
"the point with all fold-dimension offsets forced to their
floor-of-fold-shape-aligned value".  `fold` assigns each fold dimension
its multiplicity; dimensions outside the fold are untouched. -/
def plannerBasePoint (fold : List (String × Int)) (gp : GridPoint) : GridPoint :=
  { gp with args := gp.args.map fun p =>
      match alookup fold p.1 with
      | some mult => (p.1, p.2.fdiv mult * mult)
      | none => p }

/-- The pointer-cache portion of `CppVecPrintHelper` state (Cpp.hpp lines
96-99): `_vecPtrs` maps a base `GridPoint` to its pointer-variable name,
`_ptrOfsLo`/`_ptrOfsHi` record the lowest/highest inner-dimension offset
read through each pointer; `nextTemp` models the generator of fresh
variable names. -/
structure CppVecState : Type where
  vecPtrs : List (GridPoint × String)
  ptrOfsLo : List (String × Int)
  ptrOfsHi : List (String × Int)
  nextTemp : Nat

/-- The state with empty caches, as at the start of one equation's
code-generation pass. -/
def emptyVecState : CppVecState := ⟨[], [], [], 0⟩

/-- `CppVecPrintHelper::savePointPtr` (Cpp.hpp lines 204-206):
`_vecPtrs[gp] = var`. -/
def savePointPtr (s : CppVecState) (gp : GridPoint) (var : String) :
    CppVecState :=
  { s with vecPtrs := aset s.vecPtrs gp var }

/-- `CppVecPrintHelper::lookupPointPtr` (Cpp.hpp lines 207-211): return
the cached name if present, else nothing. -/
def lookupPointPtr (s : CppVecState) (gp : GridPoint) : Option String :=
  alookup s.vecPtrs gp

/-- The inner-dimension offset of a point (0 if the dimension is absent). -/
def innerOfs (innerDim : String) (gp : GridPoint) : Int :=
  (alookup gp.args innerDim).getD 0

/-- Extend the recorded low/high inner-dimension offset range of pointer
`v` with a newly requested offset. -/
def extendRange (s : CppVecState) (v : String) (ofs : Int) : CppVecState :=
  { s with
    ptrOfsLo := aset s.ptrOfsLo v
      (match alookup s.ptrOfsLo v with
       | some lo => min lo ofs
       | none => ofs),
    ptrOfsHi := aset s.ptrOfsHi v
      (match alookup s.ptrOfsHi v with
       | some hi => max hi ofs
       | none => ofs) }

/-- Modelled from the spec: the aligned-read path of
`CppVecPrintHelper::printAlignedVecRead` (implemented in `Cpp.cpp`, which
is not among the sources); per spec §4.3, "emit (or reuse from the pointer
cache) a pointer-typed variable addressing the point's base vector
register, record it under the pointer cache entry for that base, and
extend that entry's observed low/high inner-dimension offset range". -/
def requestAlignedPtr (innerDim : String) (s : CppVecState) (gp : GridPoint) :
    String × CppVecState :=
  let base := makeBasePoint innerDim gp
  let ofs := innerOfs innerDim gp
  match lookupPointPtr s base with
  | some v => (v, extendRange s v ofs)
  | none =>
    let v := "vecPtr" ++ toString s.nextTemp
    (v, extendRange (savePointPtr { s with nextTemp := s.nextTemp + 1 } base v)
      v ofs)

/-- Run `requestAlignedPtr` over a sequence of accesses. -/
def requestAll (innerDim : String) (s : CppVecState) (gps : List GridPoint) :
    CppVecState :=
  gps.foldl (fun s gp => (requestAlignedPtr innerDim s gp).2) s

/-- A family of accesses sharing one base: grid `g`, sole (inner)
dimension `x`, at a given offset. -/
def mkPt (ofs : Int) : GridPoint := ⟨"g", [("x", ofs)]⟩

/-- `CTRL_IDX_MASK` (realv.hpp lines 40-58): `0xf` for 4-byte reals,
`0x7` for 8-byte reals. -/
def CTRL_IDX_MASK (realBytes : Nat) : Nat := if realBytes = 4 then 15 else 7

/-- `CTRL_SEL_BIT` (realv.hpp lines 40-58): `0x10` for 4-byte reals,
`0x8` for 8-byte reals. -/
def CTRL_SEL_BIT (realBytes : Nat) : Nat := if realBytes = 4 then 16 else 8

/-- `V512_ELEMS` (realv.hpp lines 40-58): the lane count of a 512-bit
register: 16 for 4-byte reals, 8 for 8-byte reals. -/
def V512_ELEMS (realBytes : Nat) : Nat := if realBytes = 4 then 16 else 8

/-- The source-lane index `realv_permute2` computes from a control-lane
value: `ctrl.ci[i] & CTRL_IDX_MASK` (realv.hpp line 523). -/
def permute2Idx (realBytes : Nat) (c : Nat) : Nat := c &&& CTRL_IDX_MASK realBytes

/-- Emulated `realv_permute2(res, ctrl, a, b)` (realv.hpp lines 506-540):
per lane, `sel = ctrl.ci[i] & CTRL_SEL_BIT` picks `b` when nonzero, else
`a`, and the source lane is `ctrl.ci[i] & CTRL_IDX_MASK`; the `tmpa`/`tmpb`
copies are the identity in a pure embedding.  `W` plays the role of
`VLEN`, which the build allows to differ from `V512_ELEMS`. -/
def realv_permute2 {α : Type} (realBytes W : Nat) (res : Nat → α)
    (ctrl : Nat → Nat) (a b : Nat → α) : Nat → α :=
  storeLoop (fun i =>
    if ctrl i &&& CTRL_SEL_BIT realBytes ≠ 0 then b (permute2Idx realBytes (ctrl i))
    else a (permute2Idx realBytes (ctrl i))) res 0 W

/-- C10's in-bounds reading: masking with `CTRL_IDX_MASK` keeps every
possible control-lane value inside the `W` lanes of the register. -/
def permute2InBoundsClaim (realBytes W : Nat) : Prop :=
  ∀ c : Nat, permute2Idx realBytes c < W

/-- The `(first, second, third)` index triples at which `fd_coeff`
(fd_coeff.cpp lines 48-84) reads its local table
`d[order+1][num_points][num_points]`: for each `n` in `1..num_points-1`,
for each `v` in `0..n-1`, for each `m` in `0..min(n, order)`, line 67
reads `d[m][n-1][v]` and `d[m-1][n-1][v]` and line 68 re-reads the
just-written `d[m][n][v]`; then for each `m` in `0..min(n, order)`,
line 72 reads `d[m-1][n-1][n-1]` and `d[m][n-1][n-1]` and line 73
re-reads `d[m][n][n]`; finally line 80 reads `d[order][num_points-1][i]`
for each `i`.  Indices are integers so that the `m-1` terms can be
examined for sign. -/
def fdCoeffDReads (num_points order : Nat) : List (Int × Int × Int) :=
  (((List.range (num_points - 1)).map (fun n0 => n0 + 1)).flatMap (fun n =>
    ((List.range n).flatMap (fun v =>
      (List.range (min n order + 1)).flatMap (fun m =>
        [((m : Int), (n : Int) - 1, (v : Int)),
          ((m : Int) - 1, (n : Int) - 1, (v : Int)),
          ((m : Int), (n : Int), (v : Int))])))
    ++ ((List.range (min n order + 1)).flatMap (fun m =>
        [((m : Int) - 1, (n : Int) - 1, (n : Int) - 1),
          ((m : Int), (n : Int) - 1, (n : Int) - 1),
          ((m : Int), (n : Int), (n : Int))]))))
  ++ (List.range num_points).map
      (fun i => ((order : Int), (num_points : Int) - 1, (i : Int)))

/-- All three indices of a read of `d[order+1][num_points][num_points]`
are in bounds. -/
def dReadInBounds (num_points order : Nat) (t : Int × Int × Int) : Prop :=
  0 ≤ t.1 ∧ t.1 < (order : Int) + 1 ∧
    0 ≤ t.2.1 ∧ t.2.1 < (num_points : Int) ∧
    0 ≤ t.2.2 ∧ t.2.2 < (num_points : Int)

end Yask

theorem storeLoop_apply {α : Type} (f : Nat → α) (fuel : Nat) :
    ∀ (r : Nat → α) (j k : Nat),
      Yask.storeLoop f r j fuel k =
        if j ≤ k ∧ k < j + fuel then f k else r k := by
  induction fuel with
  | zero =>
    intro r j k
    have h : ¬(j ≤ k ∧ k < j + 0) := by omega
    rw [if_neg h]
    rfl
  | succ fuel ih =>
    intro r j k
    rw [Yask.storeLoop, ih]
    by_cases h1 : j + 1 ≤ k ∧ k < j + 1 + fuel
    · rw [if_pos h1, if_pos (by omega)]
    · rw [if_neg h1]
      by_cases h2 : j ≤ k ∧ k < j + (fuel + 1)
      · have hk : k = j := by omega
        subst hk
        rw [if_pos (by omega), Function.update_same]
      · rw [if_neg h2]
        have hk : k ≠ j := by omega
        rw [Function.update_noteq hk]

theorem maskedStoreLoop_apply {α : Type} (f : Nat → α) (k1 : Nat) (fuel : Nat) :
    ∀ (r : Nat → α) (j k : Nat),
      Yask.maskedStoreLoop f k1 r j fuel k =
        if j ≤ k ∧ k < j + fuel ∧ (k1 >>> k) &&& 1 = 1 then f k else r k := by
  induction fuel with
  | zero =>
    intro r j k
    have h : ¬(j ≤ k ∧ k < j + 0 ∧ (k1 >>> k) &&& 1 = 1) := by omega
    rw [if_neg h]
    rfl
  | succ fuel ih =>
    intro r j k
    rw [Yask.maskedStoreLoop, ih]
    by_cases h1 : j + 1 ≤ k ∧ k < j + 1 + fuel ∧ (k1 >>> k) &&& 1 = 1
    · rw [if_pos h1, if_pos (by omega)]
    · rw [if_neg h1]
      by_cases h2 : j ≤ k ∧ k < j + (fuel + 1) ∧ (k1 >>> k) &&& 1 = 1
      · have hbit : (k1 >>> k) &&& 1 = 1 := h2.2.2
        have hk : k = j := by
          rcases h2 with ⟨ha, hb, hc2⟩
          by_contra hne
          exact h1 ⟨by omega, by omega, hc2⟩
        subst hk
        rw [if_pos hbit, Function.update_same, if_pos h2]
      · rw [if_neg h2]
        by_cases hbit : (k1 >>> j) &&& 1 = 1
        · rw [if_pos hbit]
          have hk : k ≠ j := by
            intro he
            exact h2 (by subst he; exact ⟨le_refl _, by omega, hbit⟩)
          rw [Function.update_noteq hk]
        · rw [if_neg hbit]

theorem realv_align_apply {α : Type} (W : Nat) (res v2 v3 : Nat → α)
    (count : Nat) (hc : count ≤ W) (i : Nat) (hi : i < W) :
    Yask.realv_align W res v2 v3 count i =
      if i < W - count then v3 (i + count) else v2 (i + count - W) := by
  unfold Yask.realv_align
  rw [storeLoop_apply, storeLoop_apply]
  by_cases h : i < W - count
  · rw [if_neg (by omega), if_pos (by omega), if_pos h]
  · rw [if_pos (by omega), if_neg h]

theorem realv_align_masked_apply {α : Type} (W : Nat) (res v2 v3 : Nat → α)
    (count k1 : Nat) (hc : count ≤ W) (i : Nat) (hi : i < W) :
    Yask.realv_align_masked W res v2 v3 count k1 i =
      if (k1 >>> i) &&& 1 = 1 then
        (if i < W - count then v3 (i + count) else v2 (i + count - W))
      else res i := by
  unfold Yask.realv_align_masked
  rw [maskedStoreLoop_apply, maskedStoreLoop_apply]
  by_cases hbit : (k1 >>> i) &&& 1 = 1
  · rw [if_pos hbit]
    by_cases h : i < W - count
    · rw [if_neg (by omega), if_pos (by exact ⟨by omega, by omega, hbit⟩), if_pos h]
    · rw [if_pos (by exact ⟨by omega, by omega, hbit⟩), if_neg h]
  · rw [if_neg hbit, if_neg (by tauto), if_neg (by tauto)]

theorem realv_permute_apply {α : Type} (W : Nat) (res : Nat → α)
    (ctrl : Nat → Nat) (v3 : Nat → α) (i : Nat) (hi : i < W) :
    Yask.realv_permute W res ctrl v3 i = v3 (ctrl i) := by
  unfold Yask.realv_permute
  rw [storeLoop_apply]
  rw [if_pos (by omega)]

theorem realv_permute_masked_apply {α : Type} (W : Nat) (res : Nat → α)
    (ctrl : Nat → Nat) (v3 : Nat → α) (k1 : Nat) (i : Nat) (hi : i < W) :
    Yask.realv_permute_masked W res ctrl v3 k1 i =
      if (k1 >>> i) &&& 1 = 1 then v3 (ctrl i) else res i := by
  unfold Yask.realv_permute_masked
  rw [maskedStoreLoop_apply]
  by_cases hbit : (k1 >>> i) &&& 1 = 1
  · rw [if_pos hbit, if_pos (by exact ⟨by omega, by omega, hbit⟩)]
  · rw [if_neg hbit, if_neg (by tauto)]

theorem eqLoop_true_iff (a b : Nat → Yask.FP) (fuel : Nat) :
    ∀ j, Yask.eqLoop a b j fuel = true ↔
      ∀ k, j ≤ k → k < j + fuel → Yask.fpEqB (a k) (b k) = true := by
  induction fuel with
  | zero =>
    intro j
    constructor
    · intro _ k hk1 hk2
      omega
    · intro _
      rfl
  | succ fuel ih =>
    intro j
    rw [Yask.eqLoop]
    by_cases hne : Yask.fpNeB (a j) (b j) = true
    · rw [if_pos hne]
      constructor
      · intro h
        exact absurd h (by decide)
      · intro hall
        exfalso
        have heq := hall j (le_refl j) (by omega)
        unfold Yask.fpNeB at hne
        rw [heq] at hne
        simp at hne
    · rw [if_neg hne]
      have hne' : Yask.fpEqB (a j) (b j) = true := by
        revert hne
        unfold Yask.fpNeB
        cases Yask.fpEqB (a j) (b j) <;> simp
      rw [ih]
      constructor
      · intro hall k hk1 hk2
        rcases Nat.eq_or_lt_of_le hk1 with he | hl
        · subst he; exact hne'
        · exact hall k hl (by omega)
      · intro hall k hk1 hk2
        exact hall k (by omega) (by omega)

theorem fpLtB_irrefl (x : Yask.FP) : Yask.fpLtB x x = false := by
  cases x with
  | nan => rfl
  | fin s m => simp [Yask.fpLtB, Yask.FP.toVal]

theorem fpLtB_asymm (x y : Yask.FP) (h : Yask.fpLtB x y = true) :
    Yask.fpLtB y x = false := by
  cases x with
  | nan => cases y <;> simp [Yask.fpLtB, Yask.FP.toVal] at h ⊢
  | fin s m =>
    cases y with
    | nan => rfl
    | fin t n =>
      simp [Yask.fpLtB, Yask.FP.toVal] at h ⊢
      linarith

theorem gtLoop_eq_ltLoop_swap (a b : Nat → Yask.FP) (fuel : Nat) :
    ∀ j, Yask.gtLoop a b j fuel = Yask.ltLoop b a j fuel := by
  induction fuel with
  | zero => intro j; rfl
  | succ fuel ih =>
    intro j
    rw [Yask.gtLoop, Yask.ltLoop]
    unfold Yask.fpGtB
    rw [ih]

theorem ltLoop_irrefl (a : Nat → Yask.FP) (fuel : Nat) :
    ∀ j, Yask.ltLoop a a j fuel = false := by
  induction fuel with
  | zero => intro j; rfl
  | succ fuel ih =>
    intro j
    rw [Yask.ltLoop]
    unfold Yask.fpGtB
    rw [fpLtB_irrefl, ih]
    simp

theorem ltLoop_asymm (a b : Nat → Yask.FP) (fuel : Nat) :
    ∀ j, Yask.ltLoop a b j fuel = true → Yask.ltLoop b a j fuel = false := by
  induction fuel with
  | zero => intro j h; simp [Yask.ltLoop] at h
  | succ fuel ih =>
    intro j h
    rw [Yask.ltLoop] at h ⊢
    unfold Yask.fpGtB at h ⊢
    by_cases h1 : Yask.fpLtB (a j) (b j) = true
    · rw [fpLtB_asymm _ _ h1]
      rw [if_neg (by simp), h1, if_pos rfl]
    · rw [if_neg h1] at h
      by_cases h2 : Yask.fpLtB (b j) (a j) = true
      · rw [if_pos h2] at h
        exact absurd h (by decide)
      · rw [if_neg h2] at h
        rw [if_neg h2, if_neg h1]
        exact ih (j + 1) h

theorem ltLoop_true_iff (a b : Nat → Yask.FP) (fuel : Nat) :
    ∀ j, Yask.ltLoop a b j fuel = true ↔
      ∃ k, j ≤ k ∧ k < j + fuel ∧
        (∀ m, j ≤ m → m < k →
          Yask.fpLtB (a m) (b m) = false ∧ Yask.fpLtB (b m) (a m) = false) ∧
        Yask.fpLtB (a k) (b k) = true := by
  induction fuel with
  | zero =>
    intro j
    constructor
    · intro h; simp [Yask.ltLoop] at h
    · rintro ⟨k, h1, h2, -, -⟩; omega
  | succ fuel ih =>
    intro j
    rw [Yask.ltLoop]
    unfold Yask.fpGtB
    by_cases h1 : Yask.fpLtB (a j) (b j) = true
    · rw [if_pos h1]
      constructor
      · intro _
        exact ⟨j, le_refl j, by omega, fun m hm1 hm2 => by omega, h1⟩
      · intro _; rfl
    · rw [if_neg h1]
      by_cases h2 : Yask.fpLtB (b j) (a j) = true
      · rw [if_pos h2]
        constructor
        · intro h; exact absurd h (by decide)
        · rintro ⟨k, hk1, hk2, hpre, hk⟩
          rcases Nat.eq_or_lt_of_le hk1 with he | hl
          · subst he; exact absurd hk h1
          · exact absurd h2 (by rw [(hpre j (le_refl j) hl).2]; decide)
      · rw [if_neg h2, ih]
        have h1' : Yask.fpLtB (a j) (b j) = false := by
          revert h1; cases Yask.fpLtB (a j) (b j) <;> simp
        have h2' : Yask.fpLtB (b j) (a j) = false := by
          revert h2; cases Yask.fpLtB (b j) (a j) <;> simp
        constructor
        · rintro ⟨k, hk1, hk2, hpre, hk⟩
          refine ⟨k, by omega, by omega, ?_, hk⟩
          intro m hm1 hm2
          rcases Nat.eq_or_lt_of_le hm1 with he | hl
          · subst he; exact ⟨h1', h2'⟩
          · exact hpre m hl hm2
        · rintro ⟨k, hk1, hk2, hpre, hk⟩
          have hkj : k ≠ j := by
            intro he; subst he; exact absurd hk h1
          refine ⟨k, by omega, by omega, ?_, hk⟩
          intro m hm1 hm2
          exact hpre m (by omega) hm2

/-- C1.  Unaligned reconstruction correctness: for every width `W` and
lane offset `0 < k < W`, the emulated `realv_align(res, v2, v3, k)` sets
lane `i` to `v3[i+k]` for `i < W - k` and to `v2[i+k-W]` for
`W - k ≤ i < W`, i.e. exactly lane `i + k` of the double-width
concatenation of `v3` (lower) and `v2` (upper) — the lanes a direct
unaligned read at offset `k` would contain. -/
theorem realv_align_window {α : Type} (W : Nat) (res v2 v3 : Nat → α)
    (k : Nat) (hk0 : 0 < k) (hkW : k < W) (i : Nat) (hi : i < W) :
    Yask.realv_align W res v2 v3 k i =
        (if i < W - k then v3 (i + k) else v2 (i + k - W)) ∧
      Yask.realv_align W res v2 v3 k i = Yask.realv_concat W v3 v2 (i + k) := by
  have h := realv_align_apply W res v2 v3 k (le_of_lt hkW) i hi
  refine ⟨h, ?_⟩
  rw [h]
  unfold Yask.realv_concat
  by_cases hcase : i < W - k
  · rw [if_pos hcase, if_pos (by omega)]
  · rw [if_neg hcase, if_neg (by omega)]

/-- Witness for C1 at `W = 4`, `k = 1`, `i = 3`: the rotated register takes
lane `0` of `v2` there. -/
theorem realv_align_window_witness :
    Yask.realv_align 4 (fun _ => (0 : Int)) (fun j => 100 + j) (fun j => 10 + j) 1 3 =
        (if (3 : Nat) < 4 - 1 then (10 + (3 + 1) : Int) else 100 + (3 + 1 - 4)) ∧
      Yask.realv_align 4 (fun _ => (0 : Int)) (fun j => 100 + j) (fun j => 10 + j) 1 3 =
        Yask.realv_concat 4 (fun j => 10 + j) (fun j => 100 + j) (3 + 1) :=
  realv_align_window 4 (fun _ => (0 : Int)) (fun j => (100 + j : Int))
    (fun j => 10 + j) 1 (by decide) (by decide) 3 (by decide)

/-- C5.  Masked-variant frame property: for every destination `res`, inputs,
offset `count ≤ W`, control `ctrl` and bitmask `k1`, the masked emulated
lane-rotate and the masked emulated permutation leave lane `i` of `res`
unchanged when mask bit `(k1 >> i) & 1` is `0`, and set it to the value the
corresponding unmasked operation produces there when the bit is `1`. -/
theorem masked_variants_frame {α : Type} (W : Nat) (res v2 v3 : Nat → α)
    (count k1 : Nat) (ctrl : Nat → Nat) (i : Nat)
    (hc : count ≤ W) (hi : i < W) :
    ((k1 >>> i) &&& 1 = 0 →
        Yask.realv_align_masked W res v2 v3 count k1 i = res i ∧
        Yask.realv_permute_masked W res ctrl v3 k1 i = res i) ∧
    ((k1 >>> i) &&& 1 = 1 →
        Yask.realv_align_masked W res v2 v3 count k1 i =
          Yask.realv_align W res v2 v3 count i ∧
        Yask.realv_permute_masked W res ctrl v3 k1 i =
          Yask.realv_permute W res ctrl v3 i) := by
  constructor
  · intro hbit0
    have hne : ¬((k1 >>> i) &&& 1 = 1) := by omega
    rw [realv_align_masked_apply W res v2 v3 count k1 hc i hi,
      realv_permute_masked_apply W res ctrl v3 k1 i hi]
    rw [if_neg hne, if_neg hne]
    exact ⟨rfl, rfl⟩
  · intro hbit1
    rw [realv_align_masked_apply W res v2 v3 count k1 hc i hi,
      realv_permute_masked_apply W res ctrl v3 k1 i hi,
      realv_align_apply W res v2 v3 count hc i hi,
      realv_permute_apply W res ctrl v3 i hi]
    rw [if_pos hbit1, if_pos hbit1]
    exact ⟨rfl, rfl⟩

/-- Witness for C5 at `W = 4`, `count = 1`, mask `0b0101`, lane `i = 2`
(mask bit `1`). -/
theorem masked_variants_frame_witness :
    ((5 >>> 2) &&& 1 = 0 →
        Yask.realv_align_masked 4 (fun j => (j : Int)) (fun j => 100 + j)
          (fun j => 10 + j) 1 5 2 = (2 : Int) ∧
        Yask.realv_permute_masked 4 (fun j => (j : Int)) (fun _ => 0)
          (fun j => 10 + j) 5 2 = (2 : Int)) ∧
    ((5 >>> 2) &&& 1 = 1 →
        Yask.realv_align_masked 4 (fun j => (j : Int)) (fun j => 100 + j)
          (fun j => 10 + j) 1 5 2 =
          Yask.realv_align 4 (fun j => (j : Int)) (fun j => 100 + j)
            (fun j => 10 + j) 1 2 ∧
        Yask.realv_permute_masked 4 (fun j => (j : Int)) (fun _ => 0)
          (fun j => 10 + j) 5 2 =
          Yask.realv_permute 4 (fun j => (j : Int)) (fun _ => 0)
            (fun j => 10 + j) 2) :=
  masked_variants_frame 4 (fun j => (j : Int)) (fun j => 100 + j)
    (fun j => 10 + j) 1 5 (fun _ => 0) 2 (by decide) (by decide)

/-- C4 counterexample: `realv::operator==` is IEEE lane equality, not
bit-identity.  At width 1, a register holding `-0.0` compares equal to one
holding `+0.0` although their lanes are not bit-identical, and a register
holding NaN does not compare equal to itself — both directly contradicting
the claim's bit-identity reading. -/
theorem realv_eq_not_bit_identity :
    ¬ Yask.bitIdentityEqClaim 1
        (fun _ => Yask.FP.fin true 0) (fun _ => Yask.FP.fin false 0) ∧
      Yask.realv_eq 1 (fun _ => Yask.FP.fin true 0)
        (fun _ => Yask.FP.fin false 0) = true ∧
      Yask.FP.fin true 0 ≠ Yask.FP.fin false 0 ∧
      Yask.realv_eq 1 (fun _ => Yask.FP.nan) (fun _ => Yask.FP.nan) = false := by
  refine ⟨?_, by decide, by decide, by decide⟩
  intro hclaim
  have h := hclaim.mp (by decide) 0 (by decide)
  exact absurd h (by decide)

/-- C4 amended: `realv::operator==` returns true iff every lane pair
compares IEEE-equal (`r[j] != rhs.r[j]` never fires): the two signed zeros
compare equal, and any NaN lane makes the registers compare unequal —
including a register against itself. -/
theorem realv_eq_iff_lanes_ieee_equal (W : Nat) (a b : Nat → Yask.FP) :
    Yask.realv_eq W a b = true ↔
      ∀ j, j < W → Yask.fpEqB (a j) (b j) = true := by
  unfold Yask.realv_eq
  rw [eqLoop_true_iff]
  constructor
  · intro h j hj
    exact h j (by omega) (by omega)
  · intro h k hk1 hk2
    exact h k (by omega)

/-- Witness for C4's amended theorem at `W = 2`. -/
theorem realv_eq_iff_lanes_ieee_equal_witness :
    Yask.realv_eq 2 (fun _ => Yask.FP.fin false 1)
      (fun _ => Yask.FP.fin false 1) = true :=
  (realv_eq_iff_lanes_ieee_equal 2 _ _).mpr (by decide)

/-- C8 counterexample: the "first differing lane decides" reading fails on
NaN lanes.  With `a = [NaN, 5]` and `b = [1, 3]`, the registers first
differ at lane 0, where `a` is not IEEE-greater, yet `operator>` returns
true because the unordered lane is skipped and lane 1 decides. -/
theorem realv_gt_not_first_diff :
    ¬ Yask.firstDiffDecidesGtClaim 2
        (fun i => if i = 0 then Yask.FP.nan else Yask.FP.fin false 5)
        (fun i => if i = 0 then Yask.FP.fin false 1 else Yask.FP.fin false 3) := by
  intro hclaim
  obtain ⟨k, hk, hpre, hgtk⟩ := hclaim.mp (by decide)
  match k, hk with
  | 0, _ => exact absurd hgtk (by decide)
  | 1, _ => exact absurd (hpre 0 (by decide)) (by decide)

/-- C8 amended: `operator<` and `operator>` scan lanes from 0 upward and
the first lane at which the two values are strictly IEEE-ordered decides;
lanes at which neither value is less nor greater (equal values, the two
zeros, or NaN-unordered pairs) are skipped.  The comparison is irreflexive
and asymmetric, and `operator>` is the exact mirror of `operator<`. -/
theorem realv_lt_strict_order :
    (∀ (W : Nat) (a : Nat → Yask.FP), Yask.realv_lt W a a = false) ∧
    (∀ (W : Nat) (a b : Nat → Yask.FP),
      Yask.realv_lt W a b = true → Yask.realv_lt W b a = false) ∧
    (∀ (W : Nat) (a b : Nat → Yask.FP),
      Yask.realv_gt W a b = Yask.realv_lt W b a) ∧
    (∀ (W : Nat) (a b : Nat → Yask.FP),
      Yask.realv_lt W a b = true ↔
        ∃ k, k < W ∧
          (∀ m, m < k →
            Yask.fpLtB (a m) (b m) = false ∧ Yask.fpLtB (b m) (a m) = false) ∧
          Yask.fpLtB (a k) (b k) = true) := by
  refine ⟨?_, ?_, ?_, ?_⟩
  · intro W a
    exact ltLoop_irrefl a W 0
  · intro W a b h
    exact ltLoop_asymm a b W 0 h
  · intro W a b
    exact gtLoop_eq_ltLoop_swap a b W 0
  · intro W a b
    unfold Yask.realv_lt
    rw [ltLoop_true_iff]
    constructor
    · rintro ⟨k, -, hk2, hpre, hk⟩
      exact ⟨k, by omega, fun m hm => hpre m (by omega) hm, hk⟩
    · rintro ⟨k, hk1, hpre, hk⟩
      exact ⟨k, by omega, by omega, fun m _ hm2 => hpre m hm2, hk⟩

/-- Witness for C8's amended theorem: asymmetry applied at a concrete pair
of width-2 registers. -/
theorem realv_lt_strict_order_witness :
    Yask.realv_lt 2 (fun _ => Yask.FP.fin false 2)
      (fun _ => Yask.FP.fin false 1) = false :=
  realv_lt_strict_order.2.1 2 (fun _ => Yask.FP.fin false 1)
    (fun _ => Yask.FP.fin false 2) (by decide)

theorem fpOpCountList_eq_sum_map (l : List Yask.Expr) :
    Yask.fpOpCountList l = (l.map Yask.fpOpCount).sum := by
  induction l with
  | nil => rfl
  | cons e es ih => rw [Yask.fpOpCountList, List.map_cons, List.sum_cons, ih]

theorem commFree_fpOpCount :
    ∀ e : Yask.Expr, Yask.commFree e = true →
      Yask.fpOpCount e = Yask.ubNodes e
  | Yask.Expr.constE _, _ => rfl
  | Yask.Expr.codeE _, _ => rfl
  | Yask.Expr.gridRead _, _ => rfl
  | Yask.Expr.unaryE _ e, h => by
    rw [Yask.commFree] at h
    rw [Yask.fpOpCount, Yask.ubNodes, commFree_fpOpCount e h]
  | Yask.Expr.binaryE _ l r, h => by
    rw [Yask.commFree, Bool.and_eq_true] at h
    rw [Yask.fpOpCount, Yask.ubNodes, commFree_fpOpCount l h.1,
      commFree_fpOpCount r h.2]
  | Yask.Expr.commE _ _, h => by
    rw [Yask.commFree] at h
    exact absurd h (by decide)
  | Yask.Expr.equalsE _ r, h => by
    rw [Yask.commFree] at h
    rw [Yask.fpOpCount, Yask.ubNodes, commFree_fpOpCount r h]

/-- C2.  Op-count property of `FpOpCounterVisitor`: each leaf occurrence
(constant, code fragment, grid point) contributes 0; each unary-node
occurrence contributes 1; each binary-node occurrence contributes 1; each
commutative-node occurrence with `k ≥ 1` operands contributes `k - 1`.
Consequently an expression without commutative nodes counts exactly its
number of unary/binary node occurrences (so `n` nested unary/binary nodes
count `n`), and a subexpression appearing at two use sites is counted once
per use site. -/
theorem fpOpCounter_counts :
    (∀ (q : ℚ) (s : String) (g : Yask.GridPoint),
      Yask.fpOpCount (Yask.Expr.constE q) = 0 ∧
      Yask.fpOpCount (Yask.Expr.codeE s) = 0 ∧
      Yask.fpOpCount (Yask.Expr.gridRead g) = 0) ∧
    (∀ (op : String) (e : Yask.Expr),
      Yask.fpOpCount (Yask.Expr.unaryE op e) = 1 + Yask.fpOpCount e) ∧
    (∀ (op : String) (l r : Yask.Expr),
      Yask.fpOpCount (Yask.Expr.binaryE op l r) =
        1 + Yask.fpOpCount l + Yask.fpOpCount r) ∧
    (∀ (op : String) (ops : List Yask.Expr), ops ≠ [] →
      Yask.fpOpCount (Yask.Expr.commE op ops) =
        (ops.length - 1) + (ops.map Yask.fpOpCount).sum) ∧
    (∀ e : Yask.Expr, Yask.commFree e = true →
      Yask.fpOpCount e = Yask.ubNodes e) ∧
    (∀ (op : String) (e : Yask.Expr),
      Yask.fpOpCount (Yask.Expr.binaryE op e e) = 1 + 2 * Yask.fpOpCount e) := by
  refine ⟨fun q s g => ⟨rfl, rfl, rfl⟩, fun op e => rfl, ?_, ?_, commFree_fpOpCount, ?_⟩
  · intro op l r
    rw [Yask.fpOpCount]
    omega
  · intro op ops _
    rw [Yask.fpOpCount, fpOpCountList_eq_sum_map]
  · intro op e
    rw [Yask.fpOpCount]
    omega

/-- Witness for C2: a 3-operand sum counts 2 ops, and a comm-free nest of
two unary/binary nodes counts 2. -/
theorem fpOpCounter_counts_witness :
    Yask.fpOpCount
        (Yask.Expr.commE "+"
          [Yask.Expr.constE 1, Yask.Expr.constE 2, Yask.Expr.constE 3]) =
      ([Yask.Expr.constE 1, Yask.Expr.constE 2, Yask.Expr.constE 3].length - 1) +
        ([Yask.Expr.constE 1, Yask.Expr.constE 2,
          Yask.Expr.constE 3].map Yask.fpOpCount).sum ∧
    Yask.fpOpCount
        (Yask.Expr.unaryE "-"
          (Yask.Expr.binaryE "/" (Yask.Expr.constE 1) (Yask.Expr.constE 2))) =
      Yask.ubNodes
        (Yask.Expr.unaryE "-"
          (Yask.Expr.binaryE "/" (Yask.Expr.constE 1) (Yask.Expr.constE 2))) :=
  ⟨fpOpCounter_counts.2.2.2.1 "+"
      [Yask.Expr.constE 1, Yask.Expr.constE 2, Yask.Expr.constE 3]
      (List.cons_ne_nil _ _),
    fpOpCounter_counts.2.2.2.2.1
      (Yask.Expr.unaryE "-"
        (Yask.Expr.binaryE "/" (Yask.Expr.constE 1) (Yask.Expr.constE 2)))
      rfl⟩

/-- C3 counterexample: the default `visit(EqualsExpr*)` (Visitor.hpp lines
57-60) calls `accept` on its left-hand grid point as well as on its
right-hand side, so a visitor that overrides only the `GridPoint` case
does see the left-hand point: traversing `data(x) EQUALS 1` records the
point `data(x)`, which traversing only the right-hand side would not. -/
theorem equals_default_visits_lhs :
    Yask.GridPoint.mk "data" [("x", 0)] ∈
        Yask.collectPoints
          (Yask.Expr.equalsE (Yask.GridPoint.mk "data" [("x", 0)])
            (Yask.Expr.constE 1)) ∧
      Yask.collectPoints
          (Yask.Expr.equalsE (Yask.GridPoint.mk "data" [("x", 0)])
            (Yask.Expr.constE 1)) ≠
        Yask.collectPoints (Yask.Expr.constE 1) := by
  refine ⟨?_, ?_⟩
  · rw [Yask.collectPoints]
    exact List.mem_cons_self _ _
  · rw [Yask.collectPoints, Yask.collectPoints]
    intro h
    exact absurd h (by simp [Yask.collectPoints])

/-- C3 amended: the default `visit(EqualsExpr*)` dispatch visits both
operands — it accepts the left-hand `GridPoint` (invoking the visitor's
`GridPoint` case, with nothing below it to descend into) and then
recursively visits the right-hand side. -/
theorem equals_default_traversal (g : Yask.GridPoint) (r : Yask.Expr) :
    Yask.collectPoints (Yask.Expr.equalsE g r) = g :: Yask.collectPoints r := by
  rw [Yask.collectPoints]

theorem alookup_aset_same {κ ν : Type} [DecidableEq κ] (m : List (κ × ν))
    (k : κ) (v : ν) : Yask.alookup (Yask.aset m k v) k = some v := by
  induction m with
  | nil => simp [Yask.aset, Yask.alookup]
  | cons p ps ih =>
    rw [Yask.aset]
    by_cases h : p.1 = k
    · rw [if_pos h, Yask.alookup, if_pos rfl]
    · rw [if_neg h, Yask.alookup, if_neg h]
      exact ih

theorem lookupPointPtr_extendRange (s : Yask.CppVecState) (v : String)
    (ofs : Int) (gp : Yask.GridPoint) :
    Yask.lookupPointPtr (Yask.extendRange s v ofs) gp =
      Yask.lookupPointPtr s gp := rfl

theorem requestAlignedPtr_hit (innerDim : String) (s : Yask.CppVecState)
    (gp : Yask.GridPoint) (v : String)
    (h : Yask.lookupPointPtr s (Yask.makeBasePoint innerDim gp) = some v) :
    Yask.requestAlignedPtr innerDim s gp =
      (v, Yask.extendRange s v (Yask.innerOfs innerDim gp)) := by
  simp only [Yask.requestAlignedPtr, h]

theorem requestAlignedPtr_miss (innerDim : String) (s : Yask.CppVecState)
    (gp : Yask.GridPoint)
    (h : Yask.lookupPointPtr s (Yask.makeBasePoint innerDim gp) = none) :
    Yask.requestAlignedPtr innerDim s gp =
      ("vecPtr" ++ toString s.nextTemp,
        Yask.extendRange
          (Yask.savePointPtr { s with nextTemp := s.nextTemp + 1 }
            (Yask.makeBasePoint innerDim gp) ("vecPtr" ++ toString s.nextTemp))
          ("vecPtr" ++ toString s.nextTemp) (Yask.innerOfs innerDim gp)) := by
  simp only [Yask.requestAlignedPtr, h]

theorem mkPt_base (o : Int) :
    Yask.makeBasePoint "x" (Yask.mkPt o) = Yask.mkPt 0 := by
  simp [Yask.makeBasePoint, Yask.setArgConst, Yask.mkPt]

theorem mkPt_innerOfs (o : Int) : Yask.innerOfs "x" (Yask.mkPt o) = o := by
  simp [Yask.innerOfs, Yask.mkPt, Yask.alookup]

theorem requestAll_mkPt_range :
    ∀ (os : List Int) (s : Yask.CppVecState) (v : String) (a b : Int),
      Yask.lookupPointPtr s (Yask.mkPt 0) = some v →
      Yask.alookup s.ptrOfsLo v = some a →
      Yask.alookup s.ptrOfsHi v = some b →
      Yask.alookup (Yask.requestAll "x" s (os.map Yask.mkPt)).ptrOfsLo v =
          some (os.foldl min a) ∧
        Yask.alookup (Yask.requestAll "x" s (os.map Yask.mkPt)).ptrOfsHi v =
          some (os.foldl max b) := by
  intro os
  induction os with
  | nil =>
    intro s v a b _ h2 h3
    exact ⟨h2, h3⟩
  | cons o os ih =>
    intro s v a b h1 h2 h3
    have hl : Yask.lookupPointPtr s (Yask.makeBasePoint "x" (Yask.mkPt o)) =
        some v := by rw [mkPt_base]; exact h1
    have hstep : Yask.requestAll "x" s ((o :: os).map Yask.mkPt) =
        Yask.requestAll "x" (Yask.requestAlignedPtr "x" s (Yask.mkPt o)).2
          (os.map Yask.mkPt) := rfl
    rw [hstep, requestAlignedPtr_hit _ _ _ _ hl, mkPt_innerOfs]
    refine ih (Yask.extendRange s v o) v (min a o) (max b o) ?_ ?_ ?_
    · rw [lookupPointPtr_extendRange]; exact h1
    · simp only [Yask.extendRange, h2]
      exact alookup_aset_same _ _ _
    · simp only [Yask.extendRange, h3]
      exact alookup_aset_same _ _ _

theorem foldl_min_spec :
    ∀ (os : List Int) (a : Int),
      (os.foldl min a = a ∨ os.foldl min a ∈ os) ∧ os.foldl min a ≤ a ∧
        ∀ x ∈ os, os.foldl min a ≤ x := by
  intro os
  induction os with
  | nil =>
    intro a
    refine ⟨Or.inl rfl, le_refl a, ?_⟩
    intro x hx
    simp at hx
  | cons o os ih =>
    intro a
    obtain ⟨hmem, hle, hall⟩ := ih (min a o)
    rw [List.foldl_cons]
    refine ⟨?_, le_trans hle (min_le_left a o), ?_⟩
    · rcases hmem with he | hm
      · rcases min_choice a o with hc | hc
        · exact Or.inl (by rw [he, hc])
        · exact Or.inr (by rw [he, hc]; exact List.mem_cons_self o os)
      · exact Or.inr (List.mem_cons_of_mem o hm)
    · intro x hx
      rcases List.mem_cons.mp hx with he | hm
      · subst he
        exact le_trans hle (min_le_right a x)
      · exact hall x hm

theorem foldl_max_spec :
    ∀ (os : List Int) (a : Int),
      (os.foldl max a = a ∨ os.foldl max a ∈ os) ∧ a ≤ os.foldl max a ∧
        ∀ x ∈ os, x ≤ os.foldl max a := by
  intro os
  induction os with
  | nil =>
    intro a
    refine ⟨Or.inl rfl, le_refl a, ?_⟩
    intro x hx
    simp at hx
  | cons o os ih =>
    intro a
    obtain ⟨hmem, hle, hall⟩ := ih (max a o)
    rw [List.foldl_cons]
    refine ⟨?_, le_trans (le_max_left a o) hle, ?_⟩
    · rcases hmem with he | hm
      · rcases max_choice a o with hc | hc
        · exact Or.inl (by rw [he, hc])
        · exact Or.inr (by rw [he, hc]; exact List.mem_cons_self o os)
      · exact Or.inr (List.mem_cons_of_mem o hm)
    · intro x hx
      rcases List.mem_cons.mp hx with he | hm
      · subst he
        exact le_trans (le_max_right a x) hle
      · exact hall x hm

/-- C6.  Pointer-cache idempotence: `savePointPtr` followed by
`lookupPointPtr` on the same point returns the stored variable; a second
aligned-pointer request for a point with the same base reuses the cached
variable, adding no new cache entry and consuming no fresh name; and the
recorded low/high inner-dimension offset range after requests at offsets
`o :: os` (all sharing one base, starting from an empty pass state) is
exactly the minimum resp. maximum of all requested offsets. -/
theorem pointer_cache_props :
    (∀ (s : Yask.CppVecState) (gp : Yask.GridPoint) (var : String),
      Yask.lookupPointPtr (Yask.savePointPtr s gp var) gp = some var) ∧
    (∀ (innerDim : String) (s : Yask.CppVecState) (gp gp' : Yask.GridPoint),
      Yask.makeBasePoint innerDim gp' = Yask.makeBasePoint innerDim gp →
      (Yask.requestAlignedPtr innerDim
          (Yask.requestAlignedPtr innerDim s gp).2 gp').1 =
          (Yask.requestAlignedPtr innerDim s gp).1 ∧
        (Yask.requestAlignedPtr innerDim
            (Yask.requestAlignedPtr innerDim s gp).2 gp').2.vecPtrs =
          (Yask.requestAlignedPtr innerDim s gp).2.vecPtrs ∧
        (Yask.requestAlignedPtr innerDim
            (Yask.requestAlignedPtr innerDim s gp).2 gp').2.nextTemp =
          (Yask.requestAlignedPtr innerDim s gp).2.nextTemp) ∧
    (∀ (o : Int) (os : List Int),
      Yask.alookup (Yask.requestAll "x" Yask.emptyVecState
            ((o :: os).map Yask.mkPt)).ptrOfsLo "vecPtr0" =
          some (os.foldl min o) ∧
        Yask.alookup (Yask.requestAll "x" Yask.emptyVecState
            ((o :: os).map Yask.mkPt)).ptrOfsHi "vecPtr0" =
          some (os.foldl max o) ∧
        ((os.foldl min o = o ∨ os.foldl min o ∈ os) ∧
          ∀ x ∈ o :: os, os.foldl min o ≤ x) ∧
        ((os.foldl max o = o ∨ os.foldl max o ∈ os) ∧
          ∀ x ∈ o :: os, x ≤ os.foldl max o)) := by
  refine ⟨?_, ?_, ?_⟩
  · intro s gp var
    exact alookup_aset_same s.vecPtrs gp var
  · intro innerDim s gp gp' hb
    cases hl : Yask.lookupPointPtr s (Yask.makeBasePoint innerDim gp) with
    | some v =>
      rw [requestAlignedPtr_hit _ _ _ _ hl]
      have hl2 : Yask.lookupPointPtr
          (Yask.extendRange s v (Yask.innerOfs innerDim gp))
          (Yask.makeBasePoint innerDim gp') = some v := by
        rw [lookupPointPtr_extendRange, hb]
        exact hl
      rw [requestAlignedPtr_hit _ _ _ _ hl2]
      exact ⟨rfl, rfl, rfl⟩
    | none =>
      rw [requestAlignedPtr_miss _ _ _ hl]
      have hl2 : Yask.lookupPointPtr
          (Yask.extendRange
            (Yask.savePointPtr { s with nextTemp := s.nextTemp + 1 }
              (Yask.makeBasePoint innerDim gp)
              ("vecPtr" ++ toString s.nextTemp))
            ("vecPtr" ++ toString s.nextTemp) (Yask.innerOfs innerDim gp))
          (Yask.makeBasePoint innerDim gp') =
            some ("vecPtr" ++ toString s.nextTemp) := by
        rw [lookupPointPtr_extendRange, hb]
        exact alookup_aset_same _ _ _
      rw [requestAlignedPtr_hit _ _ _ _ hl2]
      exact ⟨rfl, rfl, rfl⟩
  · intro o os
    have h0 : Yask.lookupPointPtr Yask.emptyVecState
        (Yask.makeBasePoint "x" (Yask.mkPt o)) = none := rfl
    have hstep : Yask.requestAll "x" Yask.emptyVecState
        ((o :: os).map Yask.mkPt) =
        Yask.requestAll "x"
          (Yask.requestAlignedPtr "x" Yask.emptyVecState (Yask.mkPt o)).2
          (os.map Yask.mkPt) := rfl
    have hname : ("vecPtr" ++ toString Yask.emptyVecState.nextTemp) =
        "vecPtr0" := by decide
    have hmain := requestAll_mkPt_range os
      (Yask.requestAlignedPtr "x" Yask.emptyVecState (Yask.mkPt o)).2
      "vecPtr0" o o ?_ ?_ ?_
    · refine ⟨by rw [hstep]; exact hmain.1, by rw [hstep]; exact hmain.2, ?_, ?_⟩
      · obtain ⟨hm, hle, hall⟩ := foldl_min_spec os o
        refine ⟨hm, ?_⟩
        intro x hx
        rcases List.mem_cons.mp hx with he | hmm
        · subst he; exact hle
        · exact hall x hmm
      · obtain ⟨hm, hle, hall⟩ := foldl_max_spec os o
        refine ⟨hm, ?_⟩
        intro x hx
        rcases List.mem_cons.mp hx with he | hmm
        · subst he; exact hle
        · exact hall x hmm
    · rw [requestAlignedPtr_miss _ _ _ h0, lookupPointPtr_extendRange, hname,
        mkPt_base]
      exact alookup_aset_same _ _ _
    · rw [requestAlignedPtr_miss _ _ _ h0, mkPt_innerOfs, hname]
      simp only [Yask.extendRange]
      rw [show Yask.alookup (Yask.savePointPtr
          { Yask.emptyVecState with
            nextTemp := Yask.emptyVecState.nextTemp + 1 }
          (Yask.makeBasePoint "x" (Yask.mkPt o)) "vecPtr0").ptrOfsLo
          "vecPtr0" = none from rfl]
      exact alookup_aset_same _ _ _
    · rw [requestAlignedPtr_miss _ _ _ h0, mkPt_innerOfs, hname]
      simp only [Yask.extendRange]
      rw [show Yask.alookup (Yask.savePointPtr
          { Yask.emptyVecState with
            nextTemp := Yask.emptyVecState.nextTemp + 1 }
          (Yask.makeBasePoint "x" (Yask.mkPt o)) "vecPtr0").ptrOfsHi
          "vecPtr0" = none from rfl]
      exact alookup_aset_same _ _ _

/-- Witness for C6 at a concrete pass: two requests for `g(x+1)` and
`g(x+3)` (same base `g(x+0)`) reuse one pointer and record range
`[1, 3]`. -/
theorem pointer_cache_props_witness :
    Yask.lookupPointPtr
        (Yask.savePointPtr Yask.emptyVecState (Yask.mkPt 0) "p0")
        (Yask.mkPt 0) = some "p0" ∧
      (Yask.requestAlignedPtr "x"
          (Yask.requestAlignedPtr "x" Yask.emptyVecState (Yask.mkPt 1)).2
          (Yask.mkPt 3)).1 =
        (Yask.requestAlignedPtr "x" Yask.emptyVecState (Yask.mkPt 1)).1 ∧
      Yask.alookup (Yask.requestAll "x" Yask.emptyVecState
          ([(1 : Int), 3].map Yask.mkPt)).ptrOfsLo "vecPtr0" =
        some ([(3 : Int)].foldl min 1) ∧
      Yask.alookup (Yask.requestAll "x" Yask.emptyVecState
          ([(1 : Int), 3].map Yask.mkPt)).ptrOfsHi "vecPtr0" =
        some ([(3 : Int)].foldl max 1) :=
  ⟨pointer_cache_props.1 Yask.emptyVecState (Yask.mkPt 0) "p0",
    (pointer_cache_props.2.1 "x" Yask.emptyVecState (Yask.mkPt 1) (Yask.mkPt 3)
      (by rw [mkPt_base, mkPt_base])).1,
    (pointer_cache_props.2.2 1 [3]).1,
    (pointer_cache_props.2.2 1 [3]).2.1⟩

theorem alookup_map_if (dim : String) (val : Int) (d : String) :
    ∀ l : List (String × Int),
      Yask.alookup (l.map fun p => if p.1 = dim then (p.1, val) else p) d =
        if d = dim then (Yask.alookup l d).map (fun _ => val)
        else Yask.alookup l d := by
  intro l
  induction l with
  | nil =>
    by_cases hd : d = dim <;> simp [Yask.alookup, hd]
  | cons p ps ih =>
    simp only [List.map_cons, Yask.alookup]
    by_cases hpd : p.1 = dim <;> by_cases hp2 : p.1 = d
    · have hd : d = dim := by rw [← hp2]; exact hpd
      simp [hpd, hp2, hd]
    · have hd : d ≠ dim := fun he => hp2 (by rw [hpd, ← he])
      simp [hpd, hp2, hd, Ne.symm hd, ih]
    · have hd : d ≠ dim := fun he => hpd (by rw [hp2, he])
      simp [hpd, hp2, hd]
    · simp [hpd, hp2, ih]

theorem setArgConst_idem (gp : Yask.GridPoint) (dim : String) (val : Int) :
    Yask.setArgConst (Yask.setArgConst gp dim val) dim val =
      Yask.setArgConst gp dim val := by
  have key : ∀ l : List (String × Int),
      ((l.map fun p => if p.1 = dim then (p.1, val) else p).map
        fun p => if p.1 = dim then (p.1, val) else p) =
      l.map fun p => if p.1 = dim then (p.1, val) else p := by
    intro l
    rw [List.map_map]
    apply List.map_congr_left
    intro p _
    by_cases h : p.1 = dim <;> simp [h]
  obtain ⟨g, l⟩ := gp
  simp only [Yask.setArgConst]
  rw [key]

/-- C7 counterexample: `makeBasePoint` does not agree with the fold
planner's base-point mapping.  With fold `{x:4, y:2}` (inner dimension
`x`) and the point `g(x+1, y+1)`, `makeBasePoint` yields `g(x+0, y+1)`
(only the inner index is zeroed) while the planner's base point is
`g(x+0, y+0)` (every fold dimension floored). -/
theorem makeBasePoint_planner_disagree :
    Yask.plannerBasePoint [("x", 4), ("y", 2)]
        (Yask.GridPoint.mk "g" [("x", 1), ("y", 1)]) ≠
      Yask.makeBasePoint "x" (Yask.GridPoint.mk "g" [("x", 1), ("y", 1)]) := by
  decide

/-- C7 amended: `makeBasePoint` keeps the grid, forces the inner-dimension
index to zero, leaves every other dimension's index unchanged, and is
idempotent.  It agrees with the fold planner's base-point mapping (which
floors all fold-dimension offsets) exactly on points whose non-inner fold
offsets are already fold-aligned and whose inner offset floors to zero —
not in general. -/
theorem makeBasePoint_props :
    (∀ (innerDim : String) (gp : Yask.GridPoint),
      (Yask.makeBasePoint innerDim gp).grid = gp.grid) ∧
    (∀ (innerDim : String) (gp : Yask.GridPoint) (d : String), d ≠ innerDim →
      Yask.alookup (Yask.makeBasePoint innerDim gp).args d =
        Yask.alookup gp.args d) ∧
    (∀ (innerDim : String) (gp : Yask.GridPoint) (v : Int),
      Yask.alookup gp.args innerDim = some v →
      Yask.alookup (Yask.makeBasePoint innerDim gp).args innerDim = some 0) ∧
    (∀ (innerDim : String) (gp : Yask.GridPoint),
      Yask.makeBasePoint innerDim (Yask.makeBasePoint innerDim gp) =
        Yask.makeBasePoint innerDim gp) ∧
    (∀ (innerDim : String) (gp : Yask.GridPoint)
        (fold : List (String × Int)) (mi : Int),
      Yask.alookup fold innerDim = some mi →
      (∀ p ∈ gp.args, p.1 = innerDim → p.2.fdiv mi * mi = 0) →
      (∀ p ∈ gp.args, p.1 ≠ innerDim →
        ∀ m, Yask.alookup fold p.1 = some m → p.2.fdiv m * m = p.2) →
      Yask.plannerBasePoint fold gp = Yask.makeBasePoint innerDim gp) := by
  refine ⟨fun innerDim gp => rfl, ?_, ?_, ?_, ?_⟩
  · intro innerDim gp d hd
    show Yask.alookup (gp.args.map _) d = _
    rw [alookup_map_if, if_neg hd]
  · intro innerDim gp v hv
    show Yask.alookup (gp.args.map _) innerDim = _
    rw [alookup_map_if, if_pos rfl, hv]
    rfl
  · intro innerDim gp
    exact setArgConst_idem gp innerDim 0
  · intro innerDim gp fold mi hfold hinner hother
    obtain ⟨g, l⟩ := gp
    simp only [Yask.plannerBasePoint, Yask.makeBasePoint, Yask.setArgConst]
    congr 1
    apply List.map_congr_left
    intro p hp
    by_cases h : p.1 = innerDim
    · have h2 := hinner p hp h
      simp only [h, hfold]
      simp [h2]
    · cases hfa : Yask.alookup fold p.1 with
      | none => simp [h, hfa]
      | some m =>
        have h3 := hother p hp h m hfa
        simp [h, hfa, h3]

/-- Witness for C7's amended theorem: unchanged non-inner index, zeroed
inner index, idempotence, and conditional planner agreement at the
fold-aligned point `g(x+3, y+2)` under fold `{x:4, y:2}`. -/
theorem makeBasePoint_props_witness :
    Yask.alookup (Yask.makeBasePoint "x"
        (Yask.GridPoint.mk "g" [("x", 3), ("y", 2)])).args "y" =
      Yask.alookup (Yask.GridPoint.mk "g" [("x", 3), ("y", 2)]).args "y" ∧
    Yask.alookup (Yask.makeBasePoint "x"
        (Yask.GridPoint.mk "g" [("x", 3), ("y", 2)])).args "x" = some 0 ∧
    Yask.plannerBasePoint [("x", 4), ("y", 2)]
        (Yask.GridPoint.mk "g" [("x", 3), ("y", 2)]) =
      Yask.makeBasePoint "x" (Yask.GridPoint.mk "g" [("x", 3), ("y", 2)]) :=
  ⟨makeBasePoint_props.2.1 "x" (Yask.GridPoint.mk "g" [("x", 3), ("y", 2)])
      "y" (by decide),
    makeBasePoint_props.2.2.1 "x" (Yask.GridPoint.mk "g" [("x", 3), ("y", 2)])
      3 (by decide),
    makeBasePoint_props.2.2.2.2 "x"
      (Yask.GridPoint.mk "g" [("x", 3), ("y", 2)]) [("x", 4), ("y", 2)] 4
      (by decide) (by decide) (by decide)⟩

/-- C9.  The claim that every read of `d` in `fd_coeff` is in bounds is
the intended behavior, but the code violates it: already at
`num_points = 2`, `order = 1` the `m = 0` iteration evaluates
`m*d[m-1][n-1][v]` (fd_coeff.cpp line 67), reading `d` at first index
`-1` — an out-of-bounds access that the multiplication by `m = 0` does
not prevent in C. -/
theorem fd_coeff_oob_read :
    ((-1 : Int), (0 : Int), (0 : Int)) ∈ Yask.fdCoeffDReads 2 1 ∧
      ¬ Yask.dReadInBounds 2 1 ((-1 : Int), (0 : Int), (0 : Int)) := by
  constructor
  · decide
  · intro h
    have := h.1
    omega

/-- C10 counterexample: the two-source permutation's index masking does
not bound lanes by the register width when `VLEN < V512_ELEMS` (a build
the emulation explicitly supports, e.g. `VLEN = 4` single-precision,
where `CTRL_IDX_MASK = 0xf`): control value 7 masks to source lane 7,
outside a 4-lane register, so the emulated loop reads past the register
rather than producing an in-bounds result. -/
theorem permute2_mask_not_in_bounds :
    ¬ Yask.permute2InBoundsClaim 4 4 ∧
      Yask.permute2Idx 4 7 = 7 ∧
      Yask.realv_permute2 4 4 (fun _ => (0 : Int)) (fun _ => 7)
        (fun i => (i : Int)) (fun i => 100 + i) 0 = (7 : Int) := by
  refine ⟨?_, by decide, by decide⟩
  intro h
  exact absurd (h 7) (by decide)

/-- C10 amended: each result lane of the emulated `realv_permute2` selects
register `b` when bit `CTRL_SEL_BIT` of its control lane is set and `a`
otherwise, at source lane `ctrl[i] & CTRL_IDX_MASK`; the masked index is
always within the lane range of a full 512-bit register
(`W = V512_ELEMS`, the configuration the masks are designed for), for
both supported precisions — but not for narrower emulated widths. -/
theorem permute2_semantics_bounds :
    (∀ (α : Type) (realBytes W : Nat) (res : Nat → α) (ctrl : Nat → Nat)
        (a b : Nat → α) (i : Nat), i < W →
      Yask.realv_permute2 realBytes W res ctrl a b i =
        if ctrl i &&& Yask.CTRL_SEL_BIT realBytes ≠ 0 then
          b (Yask.permute2Idx realBytes (ctrl i))
        else a (Yask.permute2Idx realBytes (ctrl i))) ∧
    (∀ c : Nat, Yask.permute2Idx 4 c < Yask.V512_ELEMS 4) ∧
    (∀ c : Nat, Yask.permute2Idx 8 c < Yask.V512_ELEMS 8) := by
  refine ⟨?_, ?_, ?_⟩
  · intro α realBytes W res ctrl a b i hi
    unfold Yask.realv_permute2
    rw [storeLoop_apply, if_pos (by omega)]
  · intro c
    have h : Yask.permute2Idx 4 c ≤ 15 := Nat.and_le_right
    have h2 : Yask.V512_ELEMS 4 = 16 := rfl
    omega
  · intro c
    have h : Yask.permute2Idx 8 c ≤ 7 := Nat.and_le_right
    have h2 : Yask.V512_ELEMS 8 = 8 := rfl
    omega

/-- Witness for C10's amended theorem: lane 0 of a two-source permute at
full width 16 with control value `0x12` selects lane 2 of `b`. -/
theorem permute2_semantics_bounds_witness :
    Yask.realv_permute2 4 16 (fun _ => (0 : Int)) (fun _ => 18)
        (fun i => (i : Int)) (fun i => 100 + i) 0 =
      (if 18 &&& Yask.CTRL_SEL_BIT 4 ≠ 0 then
        (100 + (Yask.permute2Idx 4 18) : Int)
      else (Yask.permute2Idx 4 18 : Int)) :=
  permute2_semantics_bounds.1 Int 4 16 (fun _ => (0 : Int)) (fun _ => 18)
    (fun i => (i : Int)) (fun i => 100 + i) 0 (by decide)
